import Mathlib

/-! Verification of redis-sentinel-proxy, `main.go`.

The program is a TCP relay in front of a Redis master.  A background loop
(`master`) polls a sentinel for the master address (`getMasterAddr`), and on a
change closes the channel `stopChan` and replaces it; every accepted connection
runs `proxy`, which dials the master, starts two `pipe` copies and waits on the
channel.

Modelling conventions.
* A Go `string` / `[]byte` is a list of bytes, a byte being a natural number.
* `*net.TCPAddr` is `Option TCPAddr`; `nil` is `none`.
* The network is an explicit input: a `Poll` records what the sockets did
  during one call of `getMasterAddr`.
* Channels live in a heap `chans : List Bool` (`true` means closed); the
  variable `stopChan` of `main` holds an index into it.
-/

namespace SentinelProxy

/-! ## Strings and the response buffer -/

/-- The bytes of an ASCII text. -/
def ascii (s : String) : List Nat := s.toList.map Char.toNat

/-- Puts the byte `c` in front of the first field of `fields`. -/
def consField (c : Nat) : List (List Nat) → List (List Nat)
  | [] => [[c]]
  | f :: fs => (c :: f) :: fs

/-- The call `strings.Split(s, "\r\n")`: `s` is cut at every occurrence of the
two bytes 13, 10, scanning from the left; `k` occurrences give `k + 1` fields. -/
def splitCRLF : List Nat → List (List Nat)
  | [] => [[]]
  | [c] => [[c]]
  | c :: d :: rest =>
    if c = 13 ∧ d = 10 then [] :: splitCRLF rest
    else consField c (splitCRLF (d :: rest))

/-- The buffer after `b := make([]byte, 256); conn.Read(b)` when the peer sent
`data`: at most 256 bytes are stored, the rest of the buffer keeps its zeros.
The code discards the byte count and later converts the whole buffer. -/
def readBuffer (data : List Nat) : List Nat :=
  data.take 256 ++ List.replicate (256 - (data.take 256).length) 0

/-! ## Addresses -/

/-- A `net.TCPAddr`; the field `IP` holds the textual form of the IP. -/
structure TCPAddr where
  IP : String
  Port : Nat
  Zone : String
deriving DecidableEq

/-- The function `net.JoinHostPort`. -/
def joinHostPort (host port : String) : String :=
  if ':' ∈ host.toList then "[" ++ host ++ "]:" ++ port else host ++ ":" ++ port

/-- The method `(*net.TCPAddr).String`, which accepts a nil receiver. -/
def addrString : Option TCPAddr → String
  | none => "<nil>"
  | some a =>
    if a.Zone ≠ "" then joinHostPort (a.IP ++ "%" ++ a.Zone) (toString a.Port)
    else joinHostPort a.IP (toString a.Port)

/-! ## getMasterAddr -/

/-- The errors `getMasterAddr` can hand back. -/
inductive Err where
  /-- The dial `net.DialTCP` to the sentinel failed (line 99). -/
  | sentinelDial
  /-- The value `errors.New("Couldn't get master address from sentinel")` (line 118). -/
  | malformed
  /-- The call `net.ResolveTCPAddr` failed (line 124). -/
  | resolve
  /-- The dial `net.DialTCP` to the resolved address failed (line 132). -/
  | probe
deriving DecidableEq

/-- What the network does during one call of `getMasterAddr`. -/
structure Poll where
  /-- Whether `net.DialTCP` to the sentinel succeeds. -/
  sentinelUp : Bool
  /-- The bytes `conn.Read` finds, or `none` when `conn.Read` returns an error. -/
  reply : Option (List Nat)
  /-- The function `net.ResolveTCPAddr("tcp", ·)`; `none` is an error. -/
  resolve : List Nat → Option TCPAddr
  /-- Whether `net.DialTCP` to the given address succeeds. -/
  probeUp : TCPAddr → Bool

/-- What `conn.Read(b)` of line 110 yields when the sentinel sends `response`
and nothing else goes wrong: a read into the 256-byte buffer never returns zero
bytes without an error, so for an empty response, where the sentinel closes the
connection without sending, it fails with `io.EOF` (`none`). -/
def connRead : List Nat → Option (List Nat)
  | [] => none
  | c :: rest => some (c :: rest)

/-- The network operations a call of `getMasterAddr` performs, in order. -/
inductive NetOp where
  | dialSentinel
  | write (query : List Nat)
  | read
  | resolve (stringaddr : List Nat)
  | dialProbe (addr : TCPAddr)
  | closeProbe
  | closeSentinel
deriving DecidableEq

/-- How a call of `getMasterAddr` ends: `log.Fatal` exits the process, or the
function returns its pair `(*net.TCPAddr, error)`. -/
inductive Ret where
  | fatal
  | ret (addr : Option TCPAddr) (err : Option Err)
deriving DecidableEq

/-- The query `fmt.Sprintf("sentinel get-master-addr-by-name %s\n", masterName)`. -/
def query (masterName : List Nat) : List Nat :=
  ascii "sentinel get-master-addr-by-name " ++ masterName ++ [10]

/-- The string `fmt.Sprintf("%s:%s", parts[2], parts[4])` of line 123. -/
def stringaddr (parts : List (List Nat)) : List Nat :=
  parts.getD 2 [] ++ [58] ++ parts.getD 4 []

/-- The function `getMasterAddr` (lines 97-142): the network operations it
performs and how it ends. -/
def getMasterAddr (masterName : List Nat) (p : Poll) : List NetOp × Ret :=
  if !p.sentinelUp then
    ([.dialSentinel], .ret none (some .sentinelDial))
  else
    match p.reply with
    | none => ([.dialSentinel, .write (query masterName), .read], .fatal)
    | some data =>
      let parts := splitCRLF (readBuffer data)
      if parts.length < 5 then
        ([.dialSentinel, .write (query masterName), .read, .closeSentinel],
          .ret none (some .malformed))
      else
        match p.resolve (stringaddr parts) with
        | none =>
          ([.dialSentinel, .write (query masterName), .read, .resolve (stringaddr parts),
            .closeSentinel], .ret none (some .resolve))
        | some addr =>
          if p.probeUp addr then
            ([.dialSentinel, .write (query masterName), .read, .resolve (stringaddr parts),
              .dialProbe addr, .closeProbe, .closeSentinel], .ret (some addr) none)
          else
            ([.dialSentinel, .write (query masterName), .read, .resolve (stringaddr parts),
              .dialProbe addr, .closeSentinel], .ret (some addr) (some .probe))

/-! ## The polling loop -/

/-- The variables the loop `master` works on: the globals `masterAddr` and
`prevMasterAddr`, the channel heap, and the variable `stopChan` of `main`. -/
structure MState where
  masterAddr : Option TCPAddr
  prevMasterAddr : Option TCPAddr
  chans : List Bool
  stopChan : Nat
deriving DecidableEq

/-- The state when `go master(&stopChan)` starts: both addresses nil and
`stopChan := make(chan struct{})` (line 37). -/
def initState : MState :=
  { masterAddr := none, prevMasterAddr := none, chans := [false], stopChan := 0 }

/-- The builtin `close(c)`: it panics (`none`) unless `c` is an open channel. -/
def closeChan (chans : List Bool) (c : Nat) : Option (List Bool) :=
  match chans[c]? with
  | some false => some (chans.set c true)
  | _ => none

/-- What the loop prints and logs. -/
inductive Event where
  /-- The `log.Println(err)` of line 62. -/
  | logErr (e : Err)
  /-- The `fmt.Printf` of line 65, with the two address strings. -/
  | changed (now prev : String)
deriving DecidableEq

/-- How one iteration of the loop ends. -/
inductive Tick where
  /-- The call `log.Fatal` ended the process. -/
  | exit
  /-- The call `close(*stopChan)` panicked. -/
  | panic
  /-- The iteration reached `time.Sleep`. -/
  | next (s : MState) (out : List Event)
deriving DecidableEq

/-- The lines `log.Println` writes when `err != nil` (lines 60-63). -/
def errLog : Option Err → List Event
  | none => []
  | some e => [.logErr e]

/-- One iteration of the loop in `master` (lines 58-70). -/
def masterTick (masterName : List Nat) (s : MState) (p : Poll) : Tick :=
  match (getMasterAddr masterName p).2 with
  | .fatal => .exit
  | .ret addr err =>
    if addrString addr ≠ addrString s.prevMasterAddr then
      match closeChan s.chans s.stopChan with
      | none => .panic
      | some closed =>
        .next { masterAddr := addr, prevMasterAddr := addr,
                chans := closed ++ [false], stopChan := closed.length }
          (errLog err ++ [.changed (addrString addr) (addrString s.prevMasterAddr)])
    else
      .next { masterAddr := addr, prevMasterAddr := addr,
              chans := s.chans, stopChan := s.stopChan } (errLog err)

/-- How a run of the loop over a sequence of polls stands. -/
inductive Run where
  /-- The process exited in `log.Fatal`; `s` is the state of the last tick start. -/
  | exited (s : MState)
  /-- The call `close(*stopChan)` panicked. -/
  | panicked (s : MState)
  /-- All polls were consumed; the loop is at the start of its next tick. -/
  | running (s : MState)
deriving DecidableEq

/-- The loop `for { ... }` of `master`, one iteration per poll. -/
def master (masterName : List Nat) : MState → List Poll → Run
  | s, [] => .running s
  | s, p :: ps =>
    match masterTick masterName s p with
    | .exit => .exited s
    | .panic => .panicked s
    | .next s1 _ => master masterName s1 ps

/-- The tick from `s` to `s1` closed the current channel and installed a newly
made one: `close(*stopChan); *stopChan = make(chan struct{})`. -/
def Rolled (s s1 : MState) : Prop :=
  s1.chans = s.chans.set s.stopChan true ++ [false] ∧ s1.stopChan = s.chans.length

instance (s s1 : MState) : Decidable (Rolled s s1) := by
  unfold Rolled; infer_instance

/-- The tick from `s` to `s1` left the channel heap and `stopChan` as they were. -/
def Untouched (s s1 : MState) : Prop :=
  s1.chans = s.chans ∧ s1.stopChan = s.stopChan

instance (s s1 : MState) : Decidable (Untouched s s1) := by
  unfold Untouched; infer_instance

/-- The channel `stopChan` holds is the newest of the heap and is open, and
every older channel is closed. -/
def EpochInv (s : MState) : Prop :=
  s.chans.length = s.stopChan + 1 ∧ s.chans[s.stopChan]? = some false
    ∧ ∀ c, c < s.stopChan → s.chans[c]? = some true

instance (s : MState) : Decidable (EpochInv s) := by
  unfold EpochInv; infer_instance

/-! ## Sessions: proxy and its two pipes -/

/-- A `*net.TCPConn` as the session sees it.  `Close` on a connection that is
already closed returns an error and changes nothing; `fdCloses` counts the
calls that did close the socket. -/
structure Conn where
  isOpen : Bool
  closeCalls : Nat
  fdCloses : Nat
deriving DecidableEq

/-- A connection that was just accepted or dialed. -/
def Conn.fresh : Conn := { isOpen := true, closeCalls := 0, fdCloses := 0 }

/-- The method `Close`. -/
def Conn.close (c : Conn) : Conn :=
  { isOpen := false, closeCalls := c.closeCalls + 1,
    fdCloses := if c.isOpen then c.fdCloses + 1 else c.fdCloses }

/-- Where the goroutine `proxy` stands. -/
inductive ProxyPc where
  /-- Before `net.DialTCP` (line 83). -/
  | dialing
  /-- After the two `go pipe(...)`, before `*stopChan` is read (line 92). -/
  | spawned
  /-- Blocked in the receive on channel `c`, the value `*stopChan` had. -/
  | waiting (c : Nat)
  /-- Returned (line 88 or line 95). -/
  | done
deriving DecidableEq

/-- Where a goroutine `pipe` stands. -/
inductive PipePc where
  /-- Never started. -/
  | idle
  /-- Inside `io.Copy` (line 75). -/
  | copying
  /-- Past `w.Close()` (line 76). -/
  | done
deriving DecidableEq

/-- One call `proxy(local, remoteAddr, &stopChan)` with its two pipes:
`up` is `pipe(local, remote)` and `down` is `pipe(remote, local)`.
The field `bornIn` is the value `*stopChan` had at the `go` statement; the
code does not keep it, it is recorded for the specification only. -/
structure Session where
  remoteAddr : Option TCPAddr
  bornIn : Nat
  proxy : ProxyPc
  up : PipePc
  down : PipePc
  localConn : Conn
  remoteConn : Option Conn
  clientEOF : Bool
  primaryEOF : Bool
deriving DecidableEq

/-- The session at the statement `go proxy(conn, masterAddr, &stopChan)`. -/
def spawn (remoteAddr : Option TCPAddr) (bornIn : Nat) : Session :=
  { remoteAddr := remoteAddr, bornIn := bornIn, proxy := .dialing, up := .idle, down := .idle,
    localConn := Conn.fresh, remoteConn := none, clientEOF := false, primaryEOF := false }

/-- The atomic steps of a session and of its two peers. -/
inductive SessAction where
  /-- Lines 83-91: `net.DialTCP`; `netOk` tells whether the network lets the
  dial through.  A nil `remoteAddr` fails in any case. -/
  | dial (netOk : Bool)
  /-- Line 92, first half: `*stopChan` is read. -/
  | load
  /-- Line 92, second half, and lines 93-94: the receive returns because the
  channel is closed, then `local.Close()`. -/
  | wake
  /-- In `pipe(local, remote)`: `io.Copy` returns, then `remote.Close()`. -/
  | upEnd
  /-- In `pipe(remote, local)`: `io.Copy` returns, then `local.Close()`. -/
  | downEnd
  /-- The client ends its stream (or its connection breaks). -/
  | clientEOF
  /-- The primary ends its stream (or its connection breaks). -/
  | primaryEOF
deriving DecidableEq

/-- Whether channel `c` of the heap is closed. -/
def chanClosed (chans : List Bool) (c : Nat) : Bool := chans.getD c false

/-- Whether the optional connection is absent or closed. -/
def notOpen : Option Conn → Bool
  | none => true
  | some c => !c.isOpen

/-- One step of a session, `none` when the step is not enabled.  The heap
`chans` and the value `cur` of `*stopChan` are those of the moment.
`io.Copy(w, r)` returns when a read of `r` fails (closed here, or ended by the
peer) or a write to `w` fails (closed here). -/
def sessStep (chans : List Bool) (cur : Nat) (s : Session) : SessAction → Option Session
  | .dial netOk =>
    if s.proxy = .dialing then
      if netOk && s.remoteAddr.isSome then
        some { s with proxy := .spawned, up := .copying, down := .copying,
                      remoteConn := some Conn.fresh }
      else
        some { s with proxy := .done, localConn := s.localConn.close }
    else none
  | .load =>
    if s.proxy = .spawned then some { s with proxy := .waiting cur } else none
  | .wake =>
    match s.proxy with
    | .waiting c =>
      if chanClosed chans c then some { s with proxy := .done, localConn := s.localConn.close }
      else none
    | _ => none
  | .upEnd =>
    if s.up = .copying ∧ (s.localConn.isOpen = false ∨ s.clientEOF = true
        ∨ notOpen s.remoteConn = true) then
      some { s with up := .done, remoteConn := s.remoteConn.map Conn.close }
    else none
  | .downEnd =>
    if s.down = .copying ∧ (notOpen s.remoteConn = true ∨ s.primaryEOF = true
        ∨ s.localConn.isOpen = false) then
      some { s with down := .done, localConn := s.localConn.close }
    else none
  | .clientEOF => some { s with clientEOF := true }
  | .primaryEOF =>
    if s.remoteConn.isSome then some { s with primaryEOF := true } else none

/-- The channel heap and the value of `*stopChan` at one moment. -/
structure Env where
  chans : List Bool
  stopChan : Nat
deriving DecidableEq

/-- A session taking the given steps, each under the heap of its moment;
`none` when one of them is not enabled. -/
def sessRun : Session → List (Env × SessAction) → Option Session
  | s, [] => some s
  | s, (e, a) :: rest =>
    match sessStep e.chans e.stopChan s a with
    | none => none
    | some s1 => sessRun s1 rest

/-! ## The whole program: loop, listener and sessions interleaved -/

/-- The loop state and the sessions spawned so far. -/
structure World where
  m : MState
  sessions : List Session
deriving DecidableEq

/-- The program when `main` enters its accept loop. -/
def initWorld : World := { m := initState, sessions := [] }

/-- The atomic actions of the program. -/
inductive Action where
  /-- One iteration of the loop in `master`, taken as a whole. -/
  | tick (p : Poll)
  /-- Lines 46-51: a connection is accepted and
  `go proxy(conn, masterAddr, &stopChan)` runs. -/
  | accept
  /-- Session number `i` takes a step. -/
  | sess (i : Nat) (a : SessAction)

/-- One action of the program, `none` when it is not enabled or the process ends. -/
def worldStep (masterName : List Nat) (w : World) : Action → Option World
  | .tick p =>
    match masterTick masterName w.m p with
    | .next s _ => some { w with m := s }
    | _ => none
  | .accept =>
    some { w with sessions := w.sessions ++ [spawn w.m.masterAddr w.m.stopChan] }
  | .sess i a =>
    match w.sessions[i]? with
    | none => none
    | some s =>
      match sessStep w.m.chans w.m.stopChan s a with
      | none => none
      | some s1 => some { w with sessions := w.sessions.set i s1 }

/-- A schedule of actions run from `w`. -/
def worldRun (masterName : List Nat) : World → List Action → Option World
  | w, [] => some w
  | w, a :: rest =>
    match worldStep masterName w a with
    | none => none
    | some w1 => worldRun masterName w1 rest

/-! ## Concrete inputs -/

/-- The master name used in the examples. -/
def mymaster : List Nat := ascii "mymaster"

/-- The address `10.0.0.1:6379`. -/
def addrA : TCPAddr := { IP := "10.0.0.1", Port := 6379, Zone := "" }

/-- The address `10.0.0.2:6379`. -/
def addrB : TCPAddr := { IP := "10.0.0.2", Port := 6379, Zone := "" }

/-- The address `10.0.0.5:6380`. -/
def addrC : TCPAddr := { IP := "10.0.0.5", Port := 6380, Zone := "" }

/-- What `net.ResolveTCPAddr` does on the three literal addresses of the
examples; any other text is rejected. -/
def resolveLit (s : List Nat) : Option TCPAddr :=
  if s = ascii "10.0.0.1:6379" then some addrA
  else if s = ascii "10.0.0.2:6379" then some addrB
  else if s = ascii "10.0.0.5:6380" then some addrC
  else none

/-- A poll in which the sentinel names `10.0.0.1:6379` and all sockets work. -/
def pollA : Poll :=
  { sentinelUp := true, reply := some (ascii "*2\r\n$8\r\n10.0.0.1\r\n$4\r\n6379\r\n"),
    resolve := resolveLit, probeUp := fun _ => true }

/-- A poll in which the sentinel names `10.0.0.2:6379` and all sockets work. -/
def pollB : Poll :=
  { sentinelUp := true, reply := some (ascii "*2\r\n$8\r\n10.0.0.2\r\n$4\r\n6379\r\n"),
    resolve := resolveLit, probeUp := fun _ => true }

/-- A poll in which the sentinel cannot be reached. -/
def pollDown : Poll :=
  { sentinelUp := false, reply := none, resolve := resolveLit, probeUp := fun _ => true }

/-- A poll in which the sentinel answers with a null reply, which has two fields. -/
def pollNull : Poll :=
  { sentinelUp := true, reply := some (ascii "*-1\r\n"),
    resolve := resolveLit, probeUp := fun _ => true }

/-- A poll in which the sentinel accepts the connection and `conn.Read` fails. -/
def pollReadFail : Poll :=
  { sentinelUp := true, reply := none, resolve := resolveLit, probeUp := fun _ => true }

/-- A poll in which the sentinel accepts the connection and closes it without
sending anything: the empty response. -/
def pollEmpty : Poll :=
  { sentinelUp := true, reply := connRead [], resolve := resolveLit, probeUp := fun _ => true }

/-- A poll in which the sentinel names `10.0.0.1:6379` and nothing listens there. -/
def pollProbeDown : Poll :=
  { sentinelUp := true, reply := some (ascii "*2\r\n$8\r\n10.0.0.1\r\n$4\r\n6379\r\n"),
    resolve := resolveLit, probeUp := fun _ => false }

/-- A poll in which the sentinel names a host that does not resolve. -/
def pollUnknown : Poll :=
  { sentinelUp := true, reply := some (ascii "*2\r\n$6\r\nnohost\r\n$4\r\n6379\r\n"),
    resolve := resolveLit, probeUp := fun _ => true }

/-- The reply of the scenario, `x`, `y`, `10.0.0.5`, `z`, `6380`, each followed
by the separator. -/
def scenarioReply : List Nat := ascii "x\r\ny\r\n10.0.0.5\r\nz\r\n6380\r\n"

/-- The same five fields with no separator after the last one: the bytes a
read returns when the final separator has not arrived yet. -/
def shortReply : List Nat := ascii "x\r\ny\r\n10.0.0.5\r\nz\r\n6380"

/-- A poll that reads `shortReply`. -/
def pollShort : Poll :=
  { sentinelUp := true, reply := some shortReply, resolve := resolveLit, probeUp := fun _ => true }

/-- The loop state once `10.0.0.1:6379` has been resolved on the first tick. -/
def stateA : MState :=
  { masterAddr := some addrA, prevMasterAddr := some addrA, chans := [true, false], stopChan := 1 }

/-- The loop state after the polls `pollA`, `pollDown`, `pollB`. -/
def stateB : MState :=
  { masterAddr := some addrB, prevMasterAddr := some addrB,
    chans := [true, true, true, false], stopChan := 3 }

/-- A connection on which `Close` has been called `n` times. -/
def connAfter (n : Nat) : Conn :=
  { isOpen := decide (n = 0), closeCalls := n, fdCloses := min n 1 }

/-- The bookkeeping that ties the connections of a session to its three
goroutines: `local` has received one `Close` from `proxy` if `proxy` has
returned and one from `pipe(remote, local)` if that pipe is done; `remote`
exists once the pipes were started and has received one `Close` if
`pipe(local, remote)` is done. -/
def SessInv (s : Session) : Prop :=
  s.localConn = connAfter ((if s.proxy = .done then 1 else 0) + (if s.down = .done then 1 else 0))
    ∧ s.remoteConn = (if s.up = .idle then none else some (connAfter (if s.up = .done then 1 else 0)))
    ∧ (s.up = .idle ↔ s.down = .idle)
    ∧ (s.proxy = .dialing → s.up = .idle)
    ∧ (s.up = .idle → s.proxy = .dialing ∨ s.proxy = .done)

instance (s : Session) : Decidable (SessInv s) := by
  unfold SessInv; infer_instance

/-- The heap and `stopChan` at `stateA`. -/
def envA : Env := { chans := [true, false], stopChan := 1 }

/-- The heap and `stopChan` after the channel of `stateA` was closed and replaced. -/
def envB : Env := { chans := [true, true, false], stopChan := 2 }

/-- A session in which the channel closes first and the primary ends its
stream afterwards. -/
def epochFirst : List (Env × SessAction) :=
  [(envA, .dial true), (envA, .load), (envB, .wake), (envB, .primaryEOF),
   (envB, .downEnd), (envB, .upEnd)]

/-- A schedule in which a connection is accepted under `10.0.0.1:6379`, the
loop then moves to `10.0.0.2:6379`, and only then the session dials and reads
`*stopChan`. -/
def lateLoad : List Action :=
  [.tick pollA, .accept, .tick pollB, .sess 0 (.dial true), .sess 0 .load]

/-- The session once `proxy` and both pipes have finished after a successful
dial, the primary having ended its stream. -/
def teardownDone : Session :=
  { remoteAddr := some addrA, bornIn := 1, proxy := .done, up := .done, down := .done,
    localConn := { isOpen := false, closeCalls := 2, fdCloses := 1 },
    remoteConn := some { isOpen := false, closeCalls := 1, fdCloses := 1 },
    clientEOF := false, primaryEOF := true }

/-- The session of the schedule `lateLoad` at its end. -/
def lateSession : Session :=
  { remoteAddr := some addrA, bornIn := 1, proxy := .waiting 2, up := .copying, down := .copying,
    localConn := Conn.fresh, remoteConn := some Conn.fresh,
    clientEOF := false, primaryEOF := false }

/-- The program at the end of the schedule `lateLoad`. -/
def lateWorld : World :=
  { m := { masterAddr := some addrB, prevMasterAddr := some addrB,
           chans := [true, true, false], stopChan := 2 },
    sessions := [lateSession] }

/-- The steps the goroutines of a session can take once the dial is over. -/
def goroutineSteps : List SessAction := [.load, .wake, .upEnd, .downEnd]

/-- The goroutine steps that can run in `s` under the heap of the moment. -/
def enabled (e : Env) (s : Session) : List SessAction :=
  goroutineSteps.filter (fun a => (sessStep e.chans e.stopChan s a).isSome)

/-- The goroutines of a session under an arbitrary scheduler: at each turn the
heap of the moment is given together with a number by which the scheduler
picks one of the steps that can run; when none can run the turn passes. -/
def runGoroutines : Session → List (Env × Nat) → Session
  | s, [] => s
  | s, (e, n) :: rest =>
    match (enabled e s)[n % (enabled e s).length]? with
    | none => runGoroutines s rest
    | some a =>
      match sessStep e.chans e.stopChan s a with
      | none => runGoroutines s rest
      | some s1 => runGoroutines s1 rest

/-- The number of steps the three goroutines of a session still have to take. -/
def pending (s : Session) : Nat :=
  (match s.proxy with
    | .dialing => 3
    | .spawned => 2
    | .waiting _ => 1
    | .done => 0)
  + (if s.up = .copying then 1 else 0) + (if s.down = .copying then 1 else 0)

/-- The dial of `s` has succeeded, the primary has ended its stream, and
`proxy` is blocked on channel `c` or has returned. -/
def Ready (c : Nat) (s : Session) : Prop :=
  SessInv s ∧ s.up ≠ .idle ∧ s.primaryEOF = true ∧ (s.proxy = .waiting c ∨ s.proxy = .done)

/-- The session after a successful dial, the read of `*stopChan` under `envA`
and the end of the primary's stream: `proxy` waits on channel 1. -/
def waitingSession : Session :=
  { remoteAddr := some addrA, bornIn := 1, proxy := .waiting 1, up := .copying, down := .copying,
    localConn := Conn.fresh, remoteConn := some Conn.fresh,
    clientEOF := false, primaryEOF := true }

/-! ## Facts about splitting -/

theorem splitCRLF_ne_nil (s : List Nat) : splitCRLF s ≠ [] := by
  induction s using splitCRLF.induct with
  | case1 => simp [splitCRLF]
  | case2 c => simp [splitCRLF]
  | case3 c d rest h ih => simp [splitCRLF, h]
  | case4 c d rest h ih =>
    simp only [splitCRLF, h, if_false]
    cases splitCRLF (d :: rest) <;> simp [consField]

theorem length_consField (c : Nat) (l : List (List Nat)) (h : l ≠ []) :
    (consField c l).length = l.length := by
  cases l with
  | nil => exact absurd rfl h
  | cons f fs => rfl

theorem splitCRLF_length_pos (s : List Nat) : 1 ≤ (splitCRLF s).length := by
  have h := splitCRLF_ne_nil s
  cases hs : splitCRLF s with
  | nil => exact absurd hs h
  | cons f fs => simp

theorem splitCRLF_cons_cons_length (c d : Nat) (rest : List Nat) :
    (splitCRLF (c :: d :: rest)).length =
      if c = 13 ∧ d = 10 then (splitCRLF rest).length + 1
      else (splitCRLF (d :: rest)).length := by
  by_cases h : c = 13 ∧ d = 10
  · simp [splitCRLF, h]
  · simp only [splitCRLF, h, if_false]
    exact length_consField c _ (splitCRLF_ne_nil _)

/-- Zero bytes hold no separator. -/
theorem splitCRLF_zeros_length (k : Nat) : (splitCRLF (List.replicate k 0)).length = 1 := by
  induction k with
  | zero => rfl
  | succ k ih =>
    cases k with
    | zero => rfl
    | succ k =>
      rw [List.replicate_succ, List.replicate_succ, splitCRLF_cons_cons_length]
      rw [List.replicate_succ] at ih
      simpa using ih

/-- Zero padding adds no field. -/
theorem splitCRLF_pad_length (s : List Nat) (k : Nat) :
    (splitCRLF (s ++ List.replicate k 0)).length = (splitCRLF s).length := by
  induction s using splitCRLF.induct with
  | case1 => simpa [splitCRLF] using splitCRLF_zeros_length k
  | case2 c =>
    cases k with
    | zero => simp
    | succ k =>
      have h := splitCRLF_zeros_length (k + 1)
      rw [List.replicate_succ] at h
      simp only [List.singleton_append, List.replicate_succ, splitCRLF_cons_cons_length]
      simp [splitCRLF, h]
  | case3 c d rest h ih =>
    simp only [List.cons_append, splitCRLF_cons_cons_length, h, if_true]
    simpa using ih
  | case4 c d rest h ih =>
    simp only [List.cons_append, splitCRLF_cons_cons_length, h, if_false]
    simpa using ih

/-- Truncation adds no field. -/
theorem splitCRLF_take_length (s : List Nat) :
    ∀ n, (splitCRLF (s.take n)).length ≤ (splitCRLF s).length := by
  induction s using splitCRLF.induct with
  | case1 => intro n; simp
  | case2 c => intro n; cases n <;> simp [splitCRLF]
  | case3 c d rest h ih =>
    intro n
    match n with
    | 0 => simpa [splitCRLF] using splitCRLF_length_pos (c :: d :: rest)
    | 1 => simpa [splitCRLF] using splitCRLF_length_pos (c :: d :: rest)
    | m + 2 =>
      simp only [List.take_succ_cons, splitCRLF_cons_cons_length, h, if_true]
      exact Nat.succ_le_succ (ih m)
  | case4 c d rest h ih =>
    intro n
    match n with
    | 0 => simpa [splitCRLF] using splitCRLF_length_pos (c :: d :: rest)
    | 1 => simpa [splitCRLF] using splitCRLF_length_pos (c :: d :: rest)
    | m + 2 =>
      simp only [List.take_succ_cons, splitCRLF_cons_cons_length, h, if_false]
      simpa using ih (m + 1)

/-- The buffer the code splits has no more fields than the reply itself. -/
theorem readBuffer_fields_le (data : List Nat) :
    (splitCRLF (readBuffer data)).length ≤ (splitCRLF data).length := by
  unfold readBuffer
  rw [splitCRLF_pad_length]
  exact splitCRLF_take_length data 256

theorem consField_getD_zero (c : Nat) (l : List (List Nat)) (h : l ≠ []) :
    (consField c l).getD 0 [] = c :: l.getD 0 [] := by
  cases l with
  | nil => exact absurd rfl h
  | cons f fs => rfl

theorem consField_getD_succ (c : Nat) (l : List (List Nat)) (i : Nat) (h : l ≠ []) :
    (consField c l).getD (i + 1) [] = l.getD (i + 1) [] := by
  cases l with
  | nil => exact absurd rfl h
  | cons f fs => rfl

/-- Zero padding changes the last field only. -/
theorem splitCRLF_pad_getD (s : List Nat) (k : Nat) :
    ∀ i, i + 1 < (splitCRLF s).length →
      (splitCRLF (s ++ List.replicate k 0)).getD i [] = (splitCRLF s).getD i [] := by
  induction s using splitCRLF.induct with
  | case1 => intro i hi; simp [splitCRLF] at hi
  | case2 c => intro i hi; simp [splitCRLF] at hi
  | case3 c d rest h ih =>
    intro i hi
    have e1 : splitCRLF (c :: d :: rest ++ List.replicate k 0)
        = [] :: splitCRLF (rest ++ List.replicate k 0) := by
      simp [splitCRLF, h]
    have e2 : splitCRLF (c :: d :: rest) = [] :: splitCRLF rest := by
      simp [splitCRLF, h]
    rw [e1, e2]
    cases i with
    | zero => rfl
    | succ j =>
      rw [e2] at hi
      simpa using ih j (by simpa using hi)
  | case4 c d rest h ih =>
    intro i hi
    have e1 : splitCRLF (c :: d :: rest ++ List.replicate k 0)
        = consField c (splitCRLF (d :: rest ++ List.replicate k 0)) := by
      simp [splitCRLF, h]
    have e2 : splitCRLF (c :: d :: rest) = consField c (splitCRLF (d :: rest)) := by
      simp [splitCRLF, h]
    rw [e2, length_consField c _ (splitCRLF_ne_nil _)] at hi
    rw [e1, e2]
    cases i with
    | zero =>
      rw [consField_getD_zero c _ (splitCRLF_ne_nil _),
        consField_getD_zero c _ (splitCRLF_ne_nil _)]
      exact congrArg (c :: ·) (ih 0 hi)
    | succ j =>
      rw [consField_getD_succ c _ j (splitCRLF_ne_nil _),
        consField_getD_succ c _ j (splitCRLF_ne_nil _)]
      exact ih (j + 1) hi

/-- Where the code and the field-wise reading of the reply agree: when the
reply fits the buffer and its field 4 is followed by a separator, so that the
reply has at least six fields, the string the code builds is field 2 of the
reply, a colon and field 4 of the reply. -/
theorem stringaddr_of_terminated_reply (data : List Nat) (hlen : data.length ≤ 256)
    (hsix : 6 ≤ (splitCRLF data).length) :
    stringaddr (splitCRLF (readBuffer data))
      = (splitCRLF data).getD 2 [] ++ [58] ++ (splitCRLF data).getD 4 [] := by
  have htake : data.take 256 = data := List.take_of_length_le hlen
  unfold readBuffer stringaddr
  rw [htake, splitCRLF_pad_getD data _ 2 (by omega), splitCRLF_pad_getD data _ 4 (by omega)]

/-! ## Facts about addresses and channels -/

theorem colon_mem_joinHostPort (host port : String) : ':' ∈ (joinHostPort host port).data := by
  unfold joinHostPort
  split <;> simp [String.data_append]

/-- The text of a non-nil address is never the text of the nil address. -/
theorem addrString_some_ne_nil (a : TCPAddr) : addrString (some a) ≠ addrString none := by
  intro h
  have hc : ':' ∈ (addrString (some a)).data := by
    simp only [addrString]
    split <;> exact colon_mem_joinHostPort _ _
  rw [h] at hc
  revert hc
  decide

theorem closeChan_open (chans : List Bool) (c : Nat) (h : chans[c]? = some false) :
    closeChan chans c = some (chans.set c true) := by
  simp [closeChan, h]

theorem closeChan_isSome_iff (chans : List Bool) (c : Nat) :
    (∃ l, closeChan chans c = some l) ↔ chans[c]? = some false := by
  unfold closeChan
  split <;> simp_all

/-- What one iteration does once `getMasterAddr` has returned and the current
channel is open. -/
theorem masterTick_of_ret (masterName : List Nat) (s : MState) (p : Poll)
    (addr : Option TCPAddr) (err : Option Err)
    (hret : (getMasterAddr masterName p).2 = .ret addr err)
    (hopen : s.chans[s.stopChan]? = some false) :
    masterTick masterName s p =
      if addrString addr ≠ addrString s.prevMasterAddr then
        .next { masterAddr := addr, prevMasterAddr := addr,
                chans := s.chans.set s.stopChan true ++ [false], stopChan := s.chans.length }
          (errLog err ++ [.changed (addrString addr) (addrString s.prevMasterAddr)])
      else
        .next { masterAddr := addr, prevMasterAddr := addr,
                chans := s.chans, stopChan := s.stopChan } (errLog err) := by
  unfold masterTick
  rw [hret]
  simp only [closeChan_open _ _ hopen, List.length_set]

/-! ## The resolver -/

/-- What `getMasterAddr` does once the read has stored bytes whose split has
fewer than five fields. -/
theorem getMasterAddr_few_fields (masterName data : List Nat) (p : Poll)
    (hup : p.sentinelUp = true) (hreply : p.reply = some data)
    (hfew : (splitCRLF data).length < 5) :
    getMasterAddr masterName p
      = ([.dialSentinel, .write (query masterName), .read, .closeSentinel],
          .ret none (some .malformed)) := by
  have hbuf : (splitCRLF (readBuffer data)).length < 5 :=
    Nat.lt_of_le_of_lt (readBuffer_fields_le data) hfew
  simp [getMasterAddr, hup, hreply, hbuf]

/-- C2, the failing case.  The empty response has one field, fewer than five;
the read of it fails with `io.EOF`, and `getMasterAddr` does not return
`(nil, error)`: `log.Fatal` ends the process after dial, write and read. -/
theorem empty_response_is_fatal :
    (splitCRLF []).length < 5
      ∧ pollEmpty.sentinelUp = true ∧ pollEmpty.reply = connRead []
      ∧ getMasterAddr mymaster pollEmpty
          = ([.dialSentinel, .write (query mymaster), .read], .fatal)
      ∧ (getMasterAddr mymaster pollEmpty).2 ≠ .ret none (some .malformed) := by
  decide

/-- C2, amended.  For a response of the sentinel that has fewer than five
fields when split on the separator, no address is resolved or probed.  If the
response is not empty, `getMasterAddr` returns `(nil, error)` and its only
network operations are the dial, the write, the read and the deferred close.
If the response is empty, the read fails and `log.Fatal` ends the process. -/
theorem getMasterAddr_malformed (masterName response : List Nat) (p : Poll)
    (hup : p.sentinelUp = true) (hreply : p.reply = connRead response)
    (hfew : (splitCRLF response).length < 5) :
    (∀ s, NetOp.resolve s ∉ (getMasterAddr masterName p).1)
      ∧ (∀ a, NetOp.dialProbe a ∉ (getMasterAddr masterName p).1)
      ∧ (response ≠ [] →
          getMasterAddr masterName p
            = ([.dialSentinel, .write (query masterName), .read, .closeSentinel],
                .ret none (some .malformed)))
      ∧ (response = [] →
          getMasterAddr masterName p
            = ([.dialSentinel, .write (query masterName), .read], .fatal)) := by
  cases response with
  | nil =>
    have hnone : p.reply = none := hreply
    have heq : getMasterAddr masterName p
        = ([.dialSentinel, .write (query masterName), .read], .fatal) := by
      simp [getMasterAddr, hup, hnone]
    rw [heq]
    simp
  | cons c rest =>
    have hsome : p.reply = some (c :: rest) := hreply
    have heq := getMasterAddr_few_fields masterName (c :: rest) p hup hsome hfew
    rw [heq]
    simp

/-- The null reply of a sentinel is rejected without resolving anything. -/
theorem getMasterAddr_malformed_witness :
    pollNull.sentinelUp = true ∧ pollNull.reply = connRead (ascii "*-1\r\n")
      ∧ (splitCRLF (ascii "*-1\r\n")).length < 5
      ∧ getMasterAddr mymaster pollNull
        = ([.dialSentinel, .write (query mymaster), .read, .closeSentinel],
            .ret none (some .malformed)) :=
  ⟨rfl, by decide, by decide,
   (getMasterAddr_malformed mymaster (ascii "*-1\r\n") pollNull rfl (by decide)
      (by decide)).2.2.1 (by decide)⟩

/-- The scenario of the specification: the reply whose fields are `x`, `y`,
`10.0.0.5`, `z`, `6380`, each followed by the separator, gives `10.0.0.5:6380`. -/
theorem stringaddr_scenario :
    stringaddr (splitCRLF (readBuffer scenarioReply)) = ascii "10.0.0.5:6380" := by
  decide

/-- C3, at the failing input.  The reply `shortReply` has 23 bytes and five
fields, and its field 2, a colon and its field 4 spell `10.0.0.5:6380`; the
string the code builds is that text followed by the 233 zero bytes left in the
buffer, which `net.ResolveTCPAddr` rejects, so the call returns `(nil, error)`. -/
theorem getMasterAddr_short_reply :
    shortReply.length ≤ 256
      ∧ (splitCRLF shortReply).length = 5
      ∧ (splitCRLF shortReply).getD 2 [] ++ [58] ++ (splitCRLF shortReply).getD 4 []
          = ascii "10.0.0.5:6380"
      ∧ stringaddr (splitCRLF (readBuffer shortReply))
          = ascii "10.0.0.5:6380" ++ List.replicate 233 0
      ∧ stringaddr (splitCRLF (readBuffer shortReply)) ≠ ascii "10.0.0.5:6380"
      ∧ (getMasterAddr mymaster pollShort).2 = .ret none (some .resolve) := by
  set_option maxRecDepth 8000 in decide

/-! ## The polling loop -/

theorem rolled_not_untouched (s s1 : MState) (h : Rolled s s1) : ¬ Untouched s s1 := by
  intro hu
  have h1 := congrArg List.length h.1
  rw [hu.1] at h1
  simp at h1

/-- C4. On a tick whose poll returns an address, taken with the current
channel open, the loop closes the channel and installs a new one exactly when
the text of the new address differs from the text of `prevMasterAddr`, and
leaves heap and `stopChan` alone otherwise.  With `prevMasterAddr` nil it always
rolls over; with `prevMasterAddr` the same address it never does. -/
theorem master_rolls_iff_changed (masterName : List Nat) (s : MState) (p : Poll)
    (a : TCPAddr) (err : Option Err)
    (hret : (getMasterAddr masterName p).2 = .ret (some a) err)
    (hopen : s.chans[s.stopChan]? = some false) :
    ∃ s1 out, masterTick masterName s p = .next s1 out
      ∧ s1.masterAddr = some a ∧ s1.prevMasterAddr = some a
      ∧ (Rolled s s1 ↔ addrString (some a) ≠ addrString s.prevMasterAddr)
      ∧ (Untouched s s1 ↔ addrString (some a) = addrString s.prevMasterAddr)
      ∧ (s.prevMasterAddr = none → Rolled s s1)
      ∧ (s.prevMasterAddr = some a → Untouched s s1)
      ∧ (Rolled s s1 → s1.chans[s.stopChan]? = some true ∧ s1.stopChan ≠ s.stopChan
          ∧ s1.chans[s1.stopChan]? = some false) := by
  have hlt : s.stopChan < s.chans.length := by
    rcases Nat.lt_or_ge s.stopChan s.chans.length with h | h
    · exact h
    · rw [List.getElem?_eq_none h] at hopen; cases hopen
  have htick := masterTick_of_ret masterName s p (some a) err hret hopen
  by_cases hd : addrString (some a) = addrString s.prevMasterAddr
  · rw [if_neg (by simpa using hd)] at htick
    refine ⟨_, _, htick, rfl, rfl, ?_, ?_, ?_, ?_, ?_⟩
    · constructor
      · intro hr; exact absurd ⟨rfl, rfl⟩ (rolled_not_untouched _ _ hr)
      · intro hne; exact absurd hd hne
    · exact ⟨fun _ => hd, fun _ => ⟨rfl, rfl⟩⟩
    · intro hprev
      rw [hprev] at hd
      exact absurd hd (addrString_some_ne_nil a)
    · intro _; exact ⟨rfl, rfl⟩
    · intro hr; exact absurd ⟨rfl, rfl⟩ (rolled_not_untouched _ _ hr)
  · rw [if_pos hd] at htick
    have hroll : Rolled s (MState.mk (some a) (some a)
        (s.chans.set s.stopChan true ++ [false]) s.chans.length) := ⟨rfl, rfl⟩
    refine ⟨_, _, htick, rfl, rfl, ?_, ?_, ?_, ?_, ?_⟩
    · exact ⟨fun _ => hd, fun _ => hroll⟩
    · constructor
      · intro hu; exact absurd hu (rolled_not_untouched _ _ hroll)
      · intro he; exact absurd he hd
    · intro _; exact hroll
    · intro hprev
      rw [hprev] at hd
      exact absurd rfl hd
    · intro _
      refine ⟨?_, ?_, ?_⟩
      · simp [List.getElem?_append_left, hlt, List.getElem?_set]
      · exact Nat.ne_of_gt hlt
      · simp [List.getElem?_append_right]

/-- The tick at `stateA` that resolves `10.0.0.2:6379` rolls the channel over. -/
theorem master_rolls_iff_changed_witness :
    (getMasterAddr mymaster pollB).2 = .ret (some addrB) none
      ∧ stateA.chans[stateA.stopChan]? = some false
      ∧ ∃ s1 out, masterTick mymaster stateA pollB = .next s1 out
          ∧ s1.masterAddr = some addrB ∧ Rolled stateA s1 :=
  ⟨by set_option maxRecDepth 8000 in decide, by decide,
    let ⟨s1, out, h1, h2, _, h4, _⟩ :=
      master_rolls_iff_changed mymaster stateA pollB addrB none
        (by set_option maxRecDepth 8000 in decide) (by decide)
    ⟨s1, out, h1, h2, h4.2 (by decide)⟩⟩

/-! ## The channel invariant -/

theorem epochInv_initState : EpochInv initState := by
  refine ⟨rfl, rfl, ?_⟩
  intro c hc
  exact absurd hc (Nat.not_lt_zero c)

theorem masterTick_cases (masterName : List Nat) (s : MState) (p : Poll)
    (hopen : s.chans[s.stopChan]? = some false) :
    masterTick masterName s p = .exit
      ∨ ∃ addr err, (getMasterAddr masterName p).2 = .ret addr err
          ∧ ((addrString addr ≠ addrString s.prevMasterAddr
                ∧ masterTick masterName s p =
                  .next { masterAddr := addr, prevMasterAddr := addr,
                          chans := s.chans.set s.stopChan true ++ [false],
                          stopChan := s.chans.length }
                    (errLog err ++ [.changed (addrString addr) (addrString s.prevMasterAddr)]))
              ∨ (addrString addr = addrString s.prevMasterAddr
                ∧ masterTick masterName s p =
                  .next { masterAddr := addr, prevMasterAddr := addr,
                          chans := s.chans, stopChan := s.stopChan } (errLog err))) := by
  cases hret : (getMasterAddr masterName p).2 with
  | fatal => left; simp [masterTick, hret]
  | ret addr err =>
    right
    refine ⟨addr, err, rfl, ?_⟩
    have htick := masterTick_of_ret masterName s p addr err hret hopen
    by_cases hd : addrString addr = addrString s.prevMasterAddr
    · right; rw [if_neg (by simpa using hd)] at htick; exact ⟨hd, htick⟩
    · left; rw [if_pos hd] at htick; exact ⟨hd, htick⟩

theorem masterTick_ne_panic (masterName : List Nat) (s : MState) (p : Poll)
    (hopen : s.chans[s.stopChan]? = some false) : masterTick masterName s p ≠ .panic := by
  rcases masterTick_cases masterName s p hopen with h | ⟨addr, err, _, ⟨_, h⟩ | ⟨_, h⟩⟩ <;>
    rw [h] <;> simp

theorem masterTick_step (masterName : List Nat) (s s1 : MState) (p : Poll) (out : List Event)
    (hinv : EpochInv s) (htick : masterTick masterName s p = .next s1 out) :
    EpochInv s1 ∧ (Untouched s s1 ∨ Rolled s s1)
      ∧ (∀ c, chanClosed s.chans c = true → chanClosed s1.chans c = true) := by
  obtain ⟨hlen, hopen, hold⟩ := hinv
  rcases masterTick_cases masterName s p hopen with h | ⟨addr, err, _, ⟨_, h⟩ | ⟨_, h⟩⟩
  · rw [h] at htick; cases htick
  · rw [h] at htick
    injection htick with hs _
    subst hs
    refine ⟨⟨?_, ?_, ?_⟩, Or.inr ⟨rfl, rfl⟩, ?_⟩
    · simp
    · simp [List.getElem?_append_right]
    · intro c hc
      simp only at hc
      have hc2 : c < (s.chans.set s.stopChan true).length := by simpa using hc
      simp only
      rw [List.getElem?_append_left hc2]
      rcases Nat.lt_or_ge c s.stopChan with hlt | hge
      · rw [List.getElem?_set_ne (Nat.ne_of_gt hlt)]
        exact hold c hlt
      · have hceq : c = s.stopChan := by omega
        subst hceq
        simp [List.getElem?_set, hc]
    · intro c hc
      simp only [chanClosed] at hc ⊢
      have hlt : c < s.chans.length := by
        rcases Nat.lt_or_ge c s.chans.length with h1 | h1
        · exact h1
        · simp [List.getD_eq_getElem?_getD, List.getElem?_eq_none h1] at hc
      have hc2 : c < (s.chans.set s.stopChan true).length := by simpa using hlt
      simp only [List.getD_eq_getElem?_getD] at hc ⊢
      rw [List.getElem?_append_left hc2]
      by_cases hceq : s.stopChan = c
      · subst hceq; simp [List.getElem?_set, hlt]
      · rw [List.getElem?_set_ne hceq]; exact hc
  · rw [h] at htick
    injection htick with hs _
    subst hs
    exact ⟨⟨hlen, hopen, hold⟩, Or.inl ⟨rfl, rfl⟩, fun c hc => hc⟩

theorem master_inv (masterName : List Nat) (polls : List Poll) :
    ∀ s, EpochInv s →
      (∀ t, master masterName s polls ≠ .panicked t)
        ∧ (∀ s1, master masterName s polls = .running s1 → EpochInv s1) := by
  induction polls with
  | nil =>
    intro s hinv
    refine ⟨by simp [master], ?_⟩
    intro s1 h
    simp only [master, Run.running.injEq] at h
    subst h
    exact hinv
  | cons p ps ih =>
    intro s hinv
    cases htick : masterTick masterName s p with
    | exit => simp [master, htick]
    | panic => exact absurd htick (masterTick_ne_panic masterName s p hinv.2.1)
    | next s1 out =>
      have h1 := (masterTick_step masterName s s1 p out hinv htick).1
      simpa [master, htick] using ih s1 h1

/-- C10. In every run of the loop from the initial state, over any sequence of
polls: no `close` panics; and at the start of every tick the channel `stopChan`
holds is open while every older channel is closed, the tick itself does not
panic, it either leaves the heap alone or closes the current channel and
installs a newly made open one, `stopChan` holds an open channel again
afterwards, and no channel that was closed is open afterwards. -/
theorem epoch_one_shot (masterName : List Nat) (polls : List Poll) :
    (∀ t, master masterName initState polls ≠ .panicked t)
      ∧ ∀ s, master masterName initState polls = .running s →
          s.chans[s.stopChan]? = some false
            ∧ (∀ c, c < s.stopChan → s.chans[c]? = some true)
            ∧ ∀ p, masterTick masterName s p ≠ .panic
                ∧ ∀ s1 out, masterTick masterName s p = .next s1 out →
                    (Untouched s s1 ∨ Rolled s s1)
                      ∧ s1.chans[s1.stopChan]? = some false
                      ∧ (∀ c, chanClosed s.chans c = true → chanClosed s1.chans c = true) := by
  have hrun := master_inv masterName polls initState epochInv_initState
  refine ⟨hrun.1, ?_⟩
  intro s hs
  have hinv := hrun.2 s hs
  refine ⟨hinv.2.1, hinv.2.2, ?_⟩
  intro p
  refine ⟨masterTick_ne_panic masterName s p hinv.2.1, ?_⟩
  intro s1 out htick
  have h := masterTick_step masterName s s1 p out hinv htick
  exact ⟨h.2.1, h.1.2.1, h.2.2⟩

/-- After the polls `pollA`, `pollDown`, `pollB` the loop stands at `stateB`,
whose current channel is open, and a further tick does not panic. -/
theorem epoch_one_shot_witness :
    master mymaster initState [pollA, pollDown, pollB] = .running stateB
      ∧ stateB.chans[stateB.stopChan]? = some false
      ∧ masterTick mymaster stateB pollA ≠ .panic :=
  ⟨by set_option maxRecDepth 8000 in decide,
   ((epoch_one_shot mymaster [pollA, pollDown, pollB]).2 stateB
      (by set_option maxRecDepth 8000 in decide)).1,
   (((epoch_one_shot mymaster [pollA, pollDown, pollB]).2 stateB
      (by set_option maxRecDepth 8000 in decide)).2.2 pollA).1⟩

/-! ## Probe failures and other resolver errors -/

/-- The return value of `getMasterAddr` once the reply has at least five
fields in the buffer and the address string resolves. -/
theorem getMasterAddr_resolved (masterName data : List Nat) (p : Poll) (a : TCPAddr)
    (hup : p.sentinelUp = true) (hreply : p.reply = some data)
    (hfields : 5 ≤ (splitCRLF (readBuffer data)).length)
    (hres : p.resolve (stringaddr (splitCRLF (readBuffer data))) = some a) :
    (getMasterAddr masterName p).2
      = .ret (some a) (if p.probeUp a = true then none else some .probe) := by
  have h5 : ¬ (splitCRLF (readBuffer data)).length < 5 := Nat.not_lt.mpr hfields
  by_cases hp : p.probeUp a = true <;> simp [getMasterAddr, hup, hreply, h5, hres, hp]

/-- C5. When the reply has its five fields and the address string resolves to
`a` while the probe dial to `a` fails, `getMasterAddr` returns `a` together
with the probe error; the loop stores `a` in `masterAddr` and `prevMasterAddr`
and reaches the same state as on the same poll with a successful probe, the
only difference being the logged error. -/
theorem probe_failure_still_accepted (masterName data : List Nat) (p : Poll) (a : TCPAddr)
    (hup : p.sentinelUp = true) (hreply : p.reply = some data)
    (hfields : 5 ≤ (splitCRLF (readBuffer data)).length)
    (hres : p.resolve (stringaddr (splitCRLF (readBuffer data))) = some a)
    (hprobe : p.probeUp a = false) :
    (getMasterAddr masterName p).2 = .ret (some a) (some .probe)
      ∧ ∀ s, s.chans[s.stopChan]? = some false →
          ∃ s1 out, masterTick masterName s p = .next s1 (.logErr .probe :: out)
            ∧ s1.masterAddr = some a ∧ s1.prevMasterAddr = some a
            ∧ masterTick masterName s { p with probeUp := fun _ => true } = .next s1 out
            ∧ (Rolled s s1 ↔ addrString (some a) ≠ addrString s.prevMasterAddr) := by
  have hret : (getMasterAddr masterName p).2 = .ret (some a) (some .probe) := by
    rw [getMasterAddr_resolved masterName data p a hup hreply hfields hres]
    simp [hprobe]
  have hret2 : (getMasterAddr masterName { p with probeUp := fun _ => true }).2
      = .ret (some a) none := by
    rw [getMasterAddr_resolved masterName data { p with probeUp := fun _ => true } a
      hup hreply hfields hres]
    simp
  refine ⟨hret, ?_⟩
  intro s hopen
  have h1 := masterTick_of_ret masterName s p (some a) (some .probe) hret hopen
  have h2 := masterTick_of_ret masterName s { p with probeUp := fun _ => true } (some a) none
    hret2 hopen
  by_cases hd : addrString (some a) = addrString s.prevMasterAddr
  · rw [if_neg (by simpa using hd)] at h1 h2
    refine ⟨_, _, h1, rfl, rfl, h2, ?_⟩
    constructor
    · intro hr; exact absurd ⟨rfl, rfl⟩ (rolled_not_untouched _ _ hr)
    · intro hne; exact absurd hd hne
  · rw [if_pos hd] at h1 h2
    exact ⟨_, _, h1, rfl, rfl, h2, fun _ => hd, fun _ => ⟨rfl, rfl⟩⟩

/-- With nothing listening on `10.0.0.1:6379`, the first tick still publishes it. -/
theorem probe_failure_still_accepted_witness :
    (getMasterAddr mymaster pollProbeDown).2 = .ret (some addrA) (some .probe)
      ∧ ∃ s1 out, masterTick mymaster initState pollProbeDown = .next s1 (.logErr .probe :: out)
          ∧ s1.masterAddr = some addrA :=
  have h := probe_failure_still_accepted mymaster
    (ascii "*2\r\n$8\r\n10.0.0.1\r\n$4\r\n6379\r\n") pollProbeDown addrA rfl rfl
    (by set_option maxRecDepth 8000 in decide) (by set_option maxRecDepth 8000 in decide) rfl
  ⟨h.1, let ⟨s1, out, h1, h2, _⟩ := h.2 initState (by decide); ⟨s1, out, h1, h2⟩⟩

/-- C8, the failing case.  When `conn.Read` returns an error, `getMasterAddr`
does not return: `log.Fatal` ends the process, and the loop makes no further
tick. -/
theorem read_failure_is_fatal :
    (getMasterAddr mymaster pollReadFail).2 = .fatal
      ∧ masterTick mymaster initState pollReadFail = .exit
      ∧ master mymaster initState [pollReadFail, pollA] = .exited initState := by
  decide

theorem getMasterAddr_returns (masterName : List Nat) (p : Poll)
    (hread : p.sentinelUp = true → p.reply ≠ none) :
    ∃ addr err, (getMasterAddr masterName p).2 = .ret addr err := by
  unfold getMasterAddr
  by_cases hup : p.sentinelUp = true
  · cases hreply : p.reply with
    | none => exact absurd hreply (hread hup)
    | some data =>
      simp only [hup, Bool.not_true, Bool.false_eq_true, if_false]
      split
      · exact ⟨_, _, rfl⟩
      · split
        · exact ⟨_, _, rfl⟩
        · split <;> exact ⟨_, _, rfl⟩
  · simp [hup]

theorem master_running (masterName : List Nat) (polls : List Poll) :
    ∀ s, EpochInv s → (∀ p ∈ polls, p.sentinelUp = true → p.reply ≠ none) →
      ∃ s1, master masterName s polls = .running s1 := by
  induction polls with
  | nil => intro s _ _; exact ⟨s, rfl⟩
  | cons p ps ih =>
    intro s hinv hread
    obtain ⟨addr, err, hret⟩ :=
      getMasterAddr_returns masterName p (hread p (List.mem_cons_self p ps))
    rcases masterTick_cases masterName s p hinv.2.1 with h | ⟨_, _, _, ⟨_, h⟩ | ⟨_, h⟩⟩
    · rw [masterTick_of_ret masterName s p addr err hret hinv.2.1] at h
      split at h <;> cases h
    · have h1 := (masterTick_step masterName s _ p _ hinv h).1
      obtain ⟨s2, hs2⟩ := ih _ h1 (fun q hq => hread q (List.mem_cons_of_mem p hq))
      exact ⟨s2, by simp [master, h, hs2]⟩
    · have h1 := (masterTick_step masterName s _ p _ hinv h).1
      obtain ⟨s2, hs2⟩ := ih _ h1 (fun q hq => hread q (List.mem_cons_of_mem p hq))
      exact ⟨s2, by simp [master, h, hs2]⟩

/-- C8, amended.  Over any sequence of polls in which no read of the
sentinel's reply fails, the loop never ends: it consumes every poll and stands
at the start of a further tick.  On each such poll `getMasterAddr` returns, and
the tick, taken with the current channel open, logs the error if there is one
and reaches `time.Sleep`. -/
theorem resolver_failures_absorbed (masterName : List Nat) (polls : List Poll)
    (hread : ∀ p ∈ polls, p.sentinelUp = true → p.reply ≠ none) :
    (∃ s, master masterName initState polls = .running s)
      ∧ ∀ p ∈ polls, ∃ addr err, (getMasterAddr masterName p).2 = .ret addr err
          ∧ ∀ s, s.chans[s.stopChan]? = some false →
              ∃ s1 out, masterTick masterName s p = .next s1 out
                ∧ ∀ e, err = some e → Event.logErr e ∈ out := by
  refine ⟨master_running masterName polls initState epochInv_initState hread, ?_⟩
  intro p hp
  obtain ⟨addr, err, hret⟩ := getMasterAddr_returns masterName p (hread p hp)
  refine ⟨addr, err, hret, ?_⟩
  intro s hopen
  have htick := masterTick_of_ret masterName s p addr err hret hopen
  by_cases hd : addrString addr = addrString s.prevMasterAddr
  · rw [if_neg (by simpa using hd)] at htick
    refine ⟨_, _, htick, ?_⟩
    intro e he; subst he; simp [errLog]
  · rw [if_pos hd] at htick
    refine ⟨_, _, htick, ?_⟩
    intro e he; subst he; simp [errLog]

/-- A sentinel that is down, a null reply, a host that does not resolve and a
dead master are all absorbed: the loop is still running after the four polls. -/
theorem resolver_failures_absorbed_witness :
    (∀ p ∈ [pollDown, pollNull, pollUnknown, pollProbeDown],
        p.sentinelUp = true → p.reply ≠ none)
      ∧ ∃ s, master mymaster initState [pollDown, pollNull, pollUnknown, pollProbeDown]
          = .running s :=
  ⟨by simp [pollDown, pollNull, pollUnknown, pollProbeDown],
   (resolver_failures_absorbed mymaster [pollDown, pollNull, pollUnknown, pollProbeDown]
      (by simp [pollDown, pollNull, pollUnknown, pollProbeDown])).1⟩

/-! ## Sessions -/

theorem sessInv_spawn (addr : Option TCPAddr) (born : Nat) : SessInv (spawn addr born) := by
  simp [SessInv, spawn, connAfter, Conn.fresh]

theorem sessStep_inv (chans : List Bool) (cur : Nat) (s s1 : Session) (a : SessAction)
    (hinv : SessInv s) (hstep : sessStep chans cur s a = some s1) : SessInv s1 := by
  obtain ⟨h1, h2, h3, h4, h5⟩ := hinv
  cases a with
  | dial netOk =>
    simp only [sessStep] at hstep
    split at hstep
    · rename_i hpc
      have hup := h4 hpc
      have hdn := h3.mp hup
      split at hstep
      · injection hstep with hs
        subst hs
        simp [SessInv, h1, hpc, hdn, connAfter, Conn.fresh]
      · injection hstep with hs
        subst hs
        simp [SessInv, h1, h2, hpc, hup, hdn, connAfter, Conn.close]
    · cases hstep
  | load =>
    simp only [sessStep] at hstep
    split at hstep
    · rename_i hpc
      injection hstep with hs
      subst hs
      have hup : s.up ≠ .idle := by
        intro h; rcases h5 h with h | h <;> rw [hpc] at h <;> cases h
      have hdn : s.down ≠ .idle := fun h => hup (h3.mpr h)
      simp [SessInv, h1, h2, hpc, hup, hdn]
    · cases hstep
  | wake =>
    simp only [sessStep] at hstep
    split at hstep
    · rename_i c hpc
      split at hstep
      · injection hstep with hs
        subst hs
        have hup : s.up ≠ .idle := by
          intro h; rcases h5 h with h | h <;> rw [hpc] at h <;> cases h
        refine ⟨?_, h2, h3, by simp, by simp⟩
        simp only [h1, hpc]
        by_cases hd : s.down = .done <;> simp [hd, connAfter, Conn.close]
      · cases hstep
    · cases hstep
  | upEnd =>
    simp only [sessStep] at hstep
    split at hstep
    · rename_i hc
      injection hstep with hs
      subst hs
      have hdn : s.down ≠ .idle := by
        intro h; have := h3.mpr h; rw [hc.1] at this; cases this
      have hpr : s.proxy ≠ .dialing := by
        intro h; have := h4 h; rw [hc.1] at this; cases this
      refine ⟨h1, ?_, by simp [hdn], by simp [hpr], by simp⟩
      simp [h2, hc.1, connAfter, Conn.close]
    · cases hstep
  | downEnd =>
    simp only [sessStep] at hstep
    split at hstep
    · rename_i hc
      injection hstep with hs
      subst hs
      have hup : s.up ≠ .idle := by
        intro h; have := h3.mp h; rw [hc.1] at this; cases this
      refine ⟨?_, h2, by simp [hup], h4, h5⟩
      simp only [h1, hc.1]
      by_cases hd : s.proxy = .done <;> simp [hd, connAfter, Conn.close]
    · cases hstep
  | clientEOF =>
    simp only [sessStep] at hstep
    injection hstep with hs
    subst hs
    exact ⟨h1, h2, h3, h4, h5⟩
  | primaryEOF =>
    simp only [sessStep] at hstep
    split at hstep
    · injection hstep with hs
      subst hs
      exact ⟨h1, h2, h3, h4, h5⟩
    · cases hstep

theorem sessRun_inv (tr : List (Env × SessAction)) :
    ∀ s s1, SessInv s → sessRun s tr = some s1 → SessInv s1 := by
  induction tr with
  | nil =>
    intro s s1 hinv h
    simp only [sessRun, Option.some.injEq] at h
    subst h; exact hinv
  | cons ea rest ih =>
    intro s s1 hinv h
    obtain ⟨e, a⟩ := ea
    simp only [sessRun] at h
    cases hstep : sessStep e.chans e.stopChan s a with
    | none => rw [hstep] at h; cases h
    | some s2 =>
      rw [hstep] at h
      exact ih s2 s1 (sessStep_inv _ _ _ _ _ hinv hstep) h

/-- What a tick does with a nil result: whenever `getMasterAddr` returns no
address while `prevMasterAddr` holds one, the tick stores nil in `masterAddr`
and `prevMasterAddr`, closes the current channel and installs a new one. -/
theorem masterTick_nil_result (masterName : List Nat) (s : MState) (p : Poll) (a : TCPAddr)
    (err : Option Err) (hret : (getMasterAddr masterName p).2 = .ret none err)
    (hprev : s.prevMasterAddr = some a) (hopen : s.chans[s.stopChan]? = some false) :
    ∃ out, masterTick masterName s p
      = .next { masterAddr := none, prevMasterAddr := none,
                chans := s.chans.set s.stopChan true ++ [false], stopChan := s.chans.length }
          out := by
  have htick := masterTick_of_ret masterName s p none err hret hopen
  have hd : addrString none ≠ addrString s.prevMasterAddr := by
    rw [hprev]; exact fun h => addrString_some_ne_nil a h.symm
  rw [if_pos hd] at htick
  exact ⟨_, htick⟩

/-- C1, at the failing input.  After a first tick that resolved `10.0.0.1:6379`,
a tick on which the sentinel cannot be reached, and likewise a tick on which it
sends a reply of two fields, sets `masterAddr` to nil, closes the current
channel and installs a new one. -/
theorem master_failed_poll_resets :
    master mymaster initState [pollA] = .running stateA
      ∧ (getMasterAddr mymaster pollDown).2 = .ret none (some .sentinelDial)
      ∧ masterTick mymaster stateA pollDown
          = .next { masterAddr := none, prevMasterAddr := none,
                    chans := [true, true, false], stopChan := 2 }
              [.logErr .sentinelDial, .changed "<nil>" "10.0.0.1:6379"]
      ∧ (getMasterAddr mymaster pollNull).2 = .ret none (some .malformed)
      ∧ masterTick mymaster stateA pollNull
          = .next { masterAddr := none, prevMasterAddr := none,
                    chans := [true, true, false], stopChan := 2 }
              [.logErr .malformed, .changed "<nil>" "10.0.0.1:6379"] := by
  set_option maxRecDepth 8000 in decide

/-- C6. A session whose dial fails, be it because `remoteAddr` is nil or
because the network refuses, ends in that one step: `proxy` has returned
without ever reading `*stopChan`, `local` has received its one `Close`, no pipe
was started and no primary connection exists.  Whatever happens afterwards,
those facts stay, and no step of the session's goroutines is enabled any more. -/
theorem proxy_dial_failure (addr : Option TCPAddr) (born : Nat) (netOk : Bool)
    (chans : List Bool) (cur : Nat) (hfail : addr = none ∨ netOk = false) :
    ∃ s1, sessStep chans cur (spawn addr born) (.dial netOk) = some s1
      ∧ s1.proxy = .done ∧ s1.localConn = { isOpen := false, closeCalls := 1, fdCloses := 1 }
      ∧ s1.up = .idle ∧ s1.down = .idle ∧ s1.remoteConn = none
      ∧ (∀ chans2 cur2 b, sessStep chans2 cur2 s1 (.dial b) = none
          ∧ sessStep chans2 cur2 s1 .load = none ∧ sessStep chans2 cur2 s1 .wake = none
          ∧ sessStep chans2 cur2 s1 .upEnd = none ∧ sessStep chans2 cur2 s1 .downEnd = none)
      ∧ ∀ tr s2, sessRun s1 tr = some s2 →
          s2.proxy = .done ∧ s2.localConn = { isOpen := false, closeCalls := 1, fdCloses := 1 }
            ∧ s2.up = .idle ∧ s2.down = .idle ∧ s2.remoteConn = none := by
  have hcond : (netOk && (spawn addr born).remoteAddr.isSome) = false := by
    rcases hfail with h | h <;> simp [spawn, h]
  have hstep : sessStep chans cur (spawn addr born) (.dial netOk)
      = some { spawn addr born with proxy := .done, localConn := (spawn addr born).localConn.close } := by
    simp only [sessStep, hcond]
    simp [spawn]
  refine ⟨_, hstep, rfl, rfl, rfl, rfl, rfl, ?_, ?_⟩
  · intro chans2 cur2 b
    simp [sessStep, spawn]
  · intro tr
    have key : ∀ (tr : List (Env × SessAction)) (s s2 : Session),
        (s.proxy = .done ∧ s.localConn = { isOpen := false, closeCalls := 1, fdCloses := 1 }
          ∧ s.up = .idle ∧ s.down = .idle ∧ s.remoteConn = none) →
        sessRun s tr = some s2 →
        (s2.proxy = .done ∧ s2.localConn = { isOpen := false, closeCalls := 1, fdCloses := 1 }
          ∧ s2.up = .idle ∧ s2.down = .idle ∧ s2.remoteConn = none) := by
      intro tr
      induction tr with
      | nil =>
        intro s s2 hs h
        simp only [sessRun, Option.some.injEq] at h
        subst h; exact hs
      | cons ea rest ih =>
        intro s s2 hs h
        obtain ⟨e, a⟩ := ea
        obtain ⟨hp, hl, hu, hd, hr⟩ := hs
        simp only [sessRun] at h
        cases hst : sessStep e.chans e.stopChan s a with
        | none => rw [hst] at h; cases h
        | some s3 =>
          rw [hst] at h
          refine ih s3 s2 ?_ h
          cases a <;> simp [sessStep, hp, hu, hd, hr] at hst
          · subst hst; simp [hp, hl, hu, hd, hr]
    intro s2 h
    exact key tr _ s2 ⟨rfl, rfl, rfl, rfl, rfl⟩ h

/-- A connection accepted before any address was resolved is closed at once. -/
theorem proxy_dial_failure_witness :
    ((none : Option TCPAddr) = none ∨ true = false)
      ∧ ∃ s1, sessStep [false] 0 (spawn none 0) (.dial true) = some s1
          ∧ s1.proxy = .done
          ∧ s1.localConn = { isOpen := false, closeCalls := 1, fdCloses := 1 }
          ∧ s1.up = .idle ∧ s1.down = .idle :=
  ⟨Or.inl rfl,
   let ⟨s1, h1, h2, h3, h4, h5, _⟩ := proxy_dial_failure none 0 true [false] 0 (Or.inl rfl)
   ⟨s1, h1, h2, h3, h4, h5⟩⟩

/-- C7, the failing case.  In the session `epochFirst` the dial succeeds, the
channel closes and the primary ends its stream; when `proxy` and both pipes
have finished, `local` has received two `Close` calls, not one. -/
theorem local_receives_two_closes :
    sessRun (spawn (some addrA) 1) epochFirst = some teardownDone
      ∧ teardownDone.primaryEOF = true ∧ chanClosed envB.chans 1 = true
      ∧ teardownDone.localConn.closeCalls = 2
      ∧ teardownDone.localConn.closeCalls ≠ 1 := by
  decide

theorem ready_step (c : Nat) (e : Env) (s s1 : Session) (a : SessAction)
    (hready : Ready c s)
    (hmem : a ∈ goroutineSteps) (hstep : sessStep e.chans e.stopChan s a = some s1) :
    Ready c s1 ∧ pending s1 + 1 = pending s := by
  obtain ⟨hinv, hup, heof, hwait⟩ := hready
  have hinv1 := sessStep_inv _ _ _ _ _ hinv hstep
  have hdn : s.down ≠ .idle := fun h => hup (hinv.2.2.1.mpr h)
  cases a with
  | dial netOk => simp [goroutineSteps] at hmem
  | clientEOF => simp [goroutineSteps] at hmem
  | primaryEOF => simp [goroutineSteps] at hmem
  | load =>
    simp only [sessStep] at hstep
    split at hstep
    · rename_i hpc
      rcases hwait with h | h <;> rw [hpc] at h <;> cases h
    · cases hstep
  | wake =>
    simp only [sessStep] at hstep
    split at hstep
    · rename_i c1 hpc
      split at hstep
      · injection hstep with hs
        subst hs
        refine ⟨⟨hinv1, hup, heof, Or.inr rfl⟩, ?_⟩
        simp [pending, hpc]
        omega
      · cases hstep
    · cases hstep
  | upEnd =>
    simp only [sessStep] at hstep
    split at hstep
    · rename_i hc
      injection hstep with hs
      subst hs
      refine ⟨⟨hinv1, by simp, heof, hwait⟩, ?_⟩
      simp [pending, hc.1]
      omega
    · cases hstep
  | downEnd =>
    simp only [sessStep] at hstep
    split at hstep
    · rename_i hc
      injection hstep with hs
      subst hs
      refine ⟨⟨hinv1, hup, heof, hwait⟩, ?_⟩
      simp [pending, hc.1]
    · cases hstep

theorem ready_enabled (c : Nat) (e : Env) (s : Session)
    (hready : Ready c s) (hclosed : chanClosed e.chans c = true) (hpend : pending s ≠ 0) :
    enabled e s ≠ [] := by
  obtain ⟨⟨h1, h2, h3, h4, h5⟩, hup, heof, hwait⟩ := hready
  have hdn : s.down ≠ .idle := fun h => hup (h3.mpr h)
  have key : ∃ a, a ∈ goroutineSteps ∧ (sessStep e.chans e.stopChan s a).isSome = true := by
    rcases hwait with hp | hp
    · exact ⟨.wake, by simp [goroutineSteps], by simp [sessStep, hp, hclosed]⟩
    · cases hd : s.down with
      | idle => exact absurd hd hdn
      | copying => exact ⟨.downEnd, by simp [goroutineSteps], by simp [sessStep, hd, heof]⟩
      | done =>
        cases hu : s.up with
        | idle => exact absurd hu hup
        | copying =>
          have hl : s.localConn.isOpen = false := by
            rw [h1]; simp [hp, hd, connAfter]
          exact ⟨.upEnd, by simp [goroutineSteps], by simp [sessStep, hu, hl]⟩
        | done => exact absurd (by simp [pending, hp, hu, hd]) hpend
  obtain ⟨a, ha, hs⟩ := key
  exact List.ne_nil_of_mem (List.mem_filter.mpr ⟨ha, hs⟩)

theorem runGoroutines_ready (c : Nat) (sched : List (Env × Nat)) :
    ∀ s, Ready c s → (∀ x ∈ sched, chanClosed x.1.chans c = true) →
      pending s ≤ sched.length →
      Ready c (runGoroutines s sched) ∧ pending (runGoroutines s sched) = 0 := by
  induction sched with
  | nil =>
    intro s hready _ hlen
    exact ⟨hready, Nat.le_zero.mp hlen⟩
  | cons x rest ih =>
    intro s hready hclosed hlen
    obtain ⟨e, n⟩ := x
    have hce : chanClosed e.chans c = true := hclosed (e, n) (List.mem_cons_self _ _)
    have hrest : ∀ y ∈ rest, chanClosed y.1.chans c = true :=
      fun y hy => hclosed y (List.mem_cons_of_mem _ hy)
    simp only [List.length_cons] at hlen
    by_cases hpend : pending s = 0
    · have hnone : ∀ a, a ∈ enabled e s → False := by
        intro a ha
        obtain ⟨hmem, hsome⟩ := List.mem_filter.mp ha
        obtain ⟨s1, hs1⟩ := Option.isSome_iff_exists.mp hsome
        have := (ready_step c e s s1 a hready hmem hs1).2
        omega
      have hnil : enabled e s = [] := List.eq_nil_iff_forall_not_mem.mpr hnone
      simp only [runGoroutines, hnil, List.getElem?_nil]
      exact ih s hready hrest (by omega)
    · have hne := ready_enabled c e s hready hce hpend
      have hpos : 0 < (enabled e s).length := List.length_pos.mpr hne
      have hlt : n % (enabled e s).length < (enabled e s).length := Nat.mod_lt _ hpos
      have hget : (enabled e s)[n % (enabled e s).length]?
          = some ((enabled e s)[n % (enabled e s).length]) := List.getElem?_eq_getElem hlt
      have hin : (enabled e s)[n % (enabled e s).length] ∈ enabled e s :=
        List.getElem_mem hlt
      obtain ⟨hmem, hsome⟩ := List.mem_filter.mp hin
      obtain ⟨s1, hs1⟩ := Option.isSome_iff_exists.mp hsome
      have hst := ready_step c e s s1 _ hready hmem hs1
      simp only [runGoroutines, hget, hs1]
      exact ih s1 hst.1 hrest (by omega)

/-- C7, amended.  For a session in any state it can reach, in every
interleaving with its peers and with the loop:
once `proxy` has returned and both pipes are done, `local` has received exactly
two `Close` calls, of which exactly one closed the socket, and `remote` has
received exactly one, which closed its socket;
when `proxy` stands before the read of `*stopChan`, that read can run and
leaves `proxy` blocked on the channel current at that moment;
and when the dial has succeeded, the primary has ended its stream and `proxy`
is blocked on a channel that is closed (or has returned already), then under
every scheduler three turns bring teardown to its end: `proxy` has returned,
both pipes are done, and the connections have received the `Close` calls
just stated. -/
theorem session_teardown_close_counts (addr : Option TCPAddr) (born : Nat)
    (tr : List (Env × SessAction)) (s : Session)
    (hrun : sessRun (spawn addr born) tr = some s) :
    (s.proxy = .done → s.up = .done → s.down = .done →
        s.localConn = { isOpen := false, closeCalls := 2, fdCloses := 1 }
          ∧ s.remoteConn = some { isOpen := false, closeCalls := 1, fdCloses := 1 })
      ∧ (s.proxy = .spawned → ∀ e : Env,
          sessStep e.chans e.stopChan s .load = some { s with proxy := .waiting e.stopChan })
      ∧ ∀ c, (s.proxy = .waiting c ∨ s.proxy = .done) → s.up ≠ .idle → s.primaryEOF = true →
          ∀ sched : List (Env × Nat), 3 ≤ sched.length →
            (∀ x ∈ sched, chanClosed x.1.chans c = true) →
            (runGoroutines s sched).proxy = .done
              ∧ (runGoroutines s sched).up = .done
              ∧ (runGoroutines s sched).down = .done
              ∧ (runGoroutines s sched).localConn
                  = { isOpen := false, closeCalls := 2, fdCloses := 1 }
              ∧ (runGoroutines s sched).remoteConn
                  = some { isOpen := false, closeCalls := 1, fdCloses := 1 } := by
  have hinv := sessRun_inv tr _ s (sessInv_spawn addr born) hrun
  have counts : ∀ t : Session, SessInv t → t.proxy = .done → t.up = .done → t.down = .done →
      t.localConn = { isOpen := false, closeCalls := 2, fdCloses := 1 }
        ∧ t.remoteConn = some { isOpen := false, closeCalls := 1, fdCloses := 1 } := by
    intro t ht hp hu hd
    rw [ht.1, ht.2.1]
    simp [hp, hu, hd, connAfter]
  refine ⟨counts s hinv, ?_, ?_⟩
  · intro hp e
    simp [sessStep, hp]
  · intro c hwait hup heof sched hlen hclosed
    have hready : Ready c s := ⟨hinv, hup, heof, hwait⟩
    have hpend : pending s ≤ sched.length := by
      have : pending s ≤ 3 := by
        rcases hwait with hp | hp <;> simp only [pending, hp] <;> split <;> split <;> omega
      omega
    obtain ⟨⟨hinv1, hup1, _, _⟩, hzero⟩ := runGoroutines_ready c sched s hready hclosed hpend
    have hdn1 : (runGoroutines s sched).down ≠ .idle := fun h => hup1 (hinv1.2.2.1.mpr h)
    have hp : (runGoroutines s sched).proxy = .done := by
      cases h : (runGoroutines s sched).proxy <;> simp [pending, h] at hzero
      rfl
    have hu : (runGoroutines s sched).up = .done := by
      cases h : (runGoroutines s sched).up with
      | idle => exact absurd h hup1
      | copying => simp [pending, h] at hzero
      | done => rfl
    have hd : (runGoroutines s sched).down = .done := by
      cases h : (runGoroutines s sched).down with
      | idle => exact absurd h hdn1
      | copying => simp [pending, h] at hzero
      | done => rfl
    have hc := counts _ hinv1 hp hu hd
    exact ⟨hp, hu, hd, hc.1, hc.2⟩

/-- From `waitingSession`, reached by a dial, the read of `*stopChan` and the
end of the primary's stream, three turns under the heap in which channel 1 is
closed finish the teardown, whichever steps the scheduler picks. -/
theorem session_teardown_close_counts_witness :
    sessRun (spawn (some addrA) 1) [(envA, .dial true), (envA, .load), (envA, .primaryEOF)]
        = some waitingSession
      ∧ (∀ x ∈ [(envB, 1), (envB, 0), (envB, 5)], chanClosed x.1.chans 1 = true)
      ∧ (runGoroutines waitingSession [(envB, 1), (envB, 0), (envB, 5)]).proxy = .done
      ∧ (runGoroutines waitingSession [(envB, 1), (envB, 0), (envB, 5)]).localConn
          = { isOpen := false, closeCalls := 2, fdCloses := 1 }
      ∧ (runGoroutines waitingSession [(envB, 1), (envB, 0), (envB, 5)]).remoteConn
          = some { isOpen := false, closeCalls := 1, fdCloses := 1 } :=
  have h := (session_teardown_close_counts (some addrA) 1
      [(envA, .dial true), (envA, .load), (envA, .primaryEOF)] waitingSession
      (by decide)).2.2 1 (Or.inl rfl) (by decide) rfl
      [(envB, 1), (envB, 0), (envB, 5)] (by decide) (by decide)
  ⟨by decide, by decide, h.1, h.2.2.2.1, h.2.2.2.2⟩

/-! ## Listener, loop and session together -/

/-- C9, at the failing input.  In the schedule `lateLoad` the session is
spawned with `10.0.0.1:6379` while channel 1 is current; the loop then moves to
`10.0.0.2:6379`, closing channel 1 and installing channel 2; the session dials
`10.0.0.1:6379` and then reads `*stopChan`, so it waits on channel 2, which is
open: it cannot wake, although the channel of its own generation is closed. -/
theorem session_waits_on_later_epoch :
    worldRun mymaster initWorld lateLoad = some lateWorld
      ∧ lateWorld.sessions = [lateSession]
      ∧ lateSession.remoteAddr = some addrA ∧ lateSession.bornIn = 1
      ∧ lateSession.proxy = .waiting 2
      ∧ lateWorld.m.masterAddr = some addrB
      ∧ chanClosed lateWorld.m.chans 1 = true ∧ chanClosed lateWorld.m.chans 2 = false
      ∧ sessStep lateWorld.m.chans lateWorld.m.stopChan lateSession .wake = none := by
  set_option maxRecDepth 8000 in decide

end SentinelProxy
